import Mathlib

/-!
Verification of the meal-analysis core of `app.py` (AI-Powered nutrition
advisor).  The Python functions `find_best_food_token`, `parse_meal_text`,
`calc_nutrition_for_item`, `sum_totals`, `analyze_meal_text` and the
`/analyze` route are shallowly embedded below.  Python floats are modelled
as exact rationals (`ℚ`) and Python's `round` as round-half-to-even on
rationals; `difflib.get_close_matches` (standard library) is embedded from
its documented semantics (SequenceMatcher matching blocks).  The food
reference table `FOOD_DB` is loaded from an external JSON resource, so all
definitions are parameterised by an ordered association list of entries.
Only the ASCII behaviour of Python's `str.lower`, `str.strip` and the
regex classes `\s`, `\w`, `\d` is modelled, which covers every string the
program's own tables and the claims use.
-/

namespace NutriApp

/-- The fixed nutrient set (`NUTRIENTS` in app.py). -/
inductive Nutrient where
  | calories | protein | carbs | fat | fiber | vitamin_c
  deriving DecidableEq, Repr

/-- `NUTRIENTS = ["calories", "protein", "carbs", "fat", "fiber", "vitamin_c"]`. -/
def NUTRIENTS : List Nutrient :=
  [.calories, .protein, .carbs, .fat, .fiber, .vitamin_c]

/-- One entry of the food reference table: per-100g nutrient values and a
default serving size (shape per §6 of the interface contract; the table is
validated at startup, so all fields are present). -/
structure FoodEntry where
  calories : ℚ
  protein : ℚ
  carbs : ℚ
  fat : ℚ
  fiber : ℚ
  vitamin_c : ℚ
  serving_g : ℚ
  deriving DecidableEq, Repr

/-- Field access by nutrient name (`base.get(n, 0.0)` in app.py; all
fields are present in a validated table). -/
def FoodEntry.nutrient (e : FoodEntry) : Nutrient → ℚ
  | .calories => e.calories
  | .protein => e.protein
  | .carbs => e.carbs
  | .fat => e.fat
  | .fiber => e.fiber
  | .vitamin_c => e.vitamin_c

/-- The food reference table: an insertion-ordered mapping from food name
to entry (a Python dict preserves insertion order). -/
abbrev FoodDB := List (String × FoodEntry)

/-- `FOOD_KEYS = list(FOOD_DB.keys())`. -/
def foodKeys (db : FoodDB) : List String := db.map Prod.fst

/-- `key in FOOD_DB` / `FOOD_DB[key]` (first binding wins; keys are unique
in a dict anyway). -/
def lookupFood (db : FoodDB) (key : String) : Option FoodEntry :=
  (db.find? (fun kv => kv.1 = key)).map Prod.snd

/-! ### Python string/char semantics (ASCII fragment) -/

/-- Python `\s` ∩ ASCII: space, tab, newline, carriage return, form feed,
vertical tab. -/
def isPySpace (c : Char) : Bool :=
  c = ' ' || c = '\t' || c = '\n' || c = '\r' || c = '\x0b' || c = '\x0c'

/-- Python `\w` ∩ ASCII: letters, digits, underscore. -/
def isPyWord (c : Char) : Bool :=
  ('a' ≤ c && c ≤ 'z') || ('A' ≤ c && c ≤ 'Z') || ('0' ≤ c && c ≤ '9') || c = '_'

/-- ASCII lower-casing of one character (Python `str.lower` on ASCII). -/
def asciiLower (c : Char) : Char :=
  if 'A' ≤ c && c ≤ 'Z' then Char.ofNat (c.toNat + 32) else c

/-- Python `str.lower()` (ASCII fragment). -/
def pyLower (s : String) : String := ⟨s.data.map asciiLower⟩

/-- Python `str.strip()` (ASCII whitespace fragment). -/
def pyStrip (s : String) : String :=
  ⟨(s.data.dropWhile isPySpace).reverse.dropWhile isPySpace |>.reverse⟩

/-- Decimal digit test (`\d` ∩ ASCII). -/
def isDigitChar (c : Char) : Bool := '0' ≤ c && c ≤ '9'

/-- Numeric value of a digit list read in base 10. -/
def digitsVal (ds : List Char) : ℕ :=
  ds.foldl (fun acc c => 10 * acc + (c.toNat - '0'.toNat)) 0

/-- Value of a matched `\d+(?:\.\d+)?` number token given its integer and
fractional digit runs (`float(...)` in app.py, idealised to an exact
rational). -/
def numVal (intDs fracDs : List Char) : ℚ :=
  (digitsVal intDs : ℚ) + (digitsVal fracDs : ℚ) / (10 : ℚ) ^ fracDs.length

/-- Round-half-to-even of a rational to an integer (Python's `round`
idealised from binary floats to exact rationals). -/
def roundHalfEven (q : ℚ) : ℤ :=
  let f : ℤ := ⌊q⌋
  let r : ℚ := q - f
  if r < 1/2 then f
  else if 1/2 < r then f + 1
  else if f % 2 = 0 then f else f + 1

/-- Python `round(q, k)` (idealised). -/
def pyRound (k : ℕ) (q : ℚ) : ℚ :=
  (roundHalfEven (q * (10 : ℚ) ^ k) : ℚ) / (10 : ℚ) ^ k

/-! ### `re.split(r",|\band\b", text)` — clause splitting.
The pattern has no IGNORECASE flag, so only lowercase `and` splits. -/

/-- Left-to-right scan for the non-overlapping separator matches of
`,|\band\b`, accumulating the current part in reverse.  A standalone
`and` splits only when flanked by word boundaries (`prev` is the text
character preceding this position, if any). -/
def splitGo (prev : Option Char) (acc : List Char) (cs : List Char) :
    List (List Char) :=
  match cs with
  | [] => [acc.reverse]
  | ',' :: rest => acc.reverse :: splitGo (some ',') [] rest
  | 'a' :: 'n' :: 'd' :: rest =>
    if ((match prev with | none => true | some c => !isPyWord c) &&
        (match rest with | [] => true | c :: _ => !isPyWord c)) then
      acc.reverse :: splitGo (some 'd') [] rest
    else splitGo (some 'a') ('a' :: acc) ('n' :: 'd' :: rest)
  | c :: rest => splitGo (some c) (c :: acc) rest
termination_by cs.length
decreasing_by all_goals simp_arith

/-- `parts = re.split(r",|\band\b", text)`. -/
def splitClauses (text : String) : List String :=
  (splitGo none [] text.data).map (fun l => ⟨l⟩)

/-! ### `grams_re = re.compile(r"(?P<grams>\d+(?:\.\d+)?)\s*g\b", re.I)` -/

/-- Greedy match of the number group `\d+(?:\.\d+)?` at this position:
integer digits, fractional digits, remainder.  (For this group inside
`grams_re`, greedy matching needs no backtracking: shrinking the digit
runs always leaves a digit or a dot where `\s*g` is required.) -/
def numTokenAt (cs : List Char) : Option (List Char × List Char × List Char) :=
  let d := cs.takeWhile isDigitChar
  let r1 := cs.drop d.length
  if d.isEmpty then none
  else
    match r1 with
    | '.' :: r =>
      let f := r.takeWhile isDigitChar
      if f.isEmpty then some (d, [], r1) else some (d, f, r.drop f.length)
    | _ => some (d, [], r1)

/-- Match of `grams_re` anchored at this position: the parsed gram value
and the remainder after the match. -/
def gramsMatchAt (cs : List Char) : Option (ℚ × List Char) :=
  match numTokenAt cs with
  | none => none
  | some (d, f, r1) =>
    let r2 := r1.dropWhile isPySpace
    match r2 with
    | c :: r3 =>
      if (c = 'g' || c = 'G') &&
          (match r3 with | [] => true | c2 :: _ => !isPyWord c2)
      then some (numVal d f, r3) else none
    | [] => none

/-- `grams_re.search(p)`: value of the leftmost match. -/
def gramsSearch : List Char → Option ℚ
  | [] => none
  | c :: rest =>
    match gramsMatchAt (c :: rest) with
    | some (v, _) => some v
    | none => gramsSearch rest

/-- Scan for `grams_re.sub("", p)`: every non-overlapping match is
removed; the fuel only bounds the recursion (each step consumes at least
one character). -/
def gramsSubGo : ℕ → List Char → List Char
  | 0, cs => cs
  | fuel + 1, cs =>
    match cs with
    | [] => []
    | c :: rest =>
      match gramsMatchAt (c :: rest) with
      | some (_, r3) => gramsSubGo fuel r3
      | none => c :: gramsSubGo fuel rest

/-- `grams_re.sub("", p)`. -/
def gramsSubAll (cs : List Char) : List Char := gramsSubGo cs.length cs

/-! ### `number_unit_food_re` -/

/-- `UNIT_TO_G` from app.py. -/
def UNIT_TO_G : List (String × ℚ) :=
  [("g", 1), ("gram", 1), ("grams", 1), ("kg", 1000),
   ("cup", 240), ("cups", 240), ("tbsp", 15), ("tablespoon", 15), ("tsp", 5),
   ("slice", 30), ("slices", 30), ("serving", 100), ("servings", 100),
   ("piece", 80), ("pieces", 80), ("egg", 50), ("eggs", 50)]

/-- `unit in UNIT_TO_G` / `UNIT_TO_G[unit]`. -/
def lookupUnit (u : String) : Option ℚ :=
  (UNIT_TO_G.find? (fun kv => kv.1 = u)).map Prod.snd

/-- The unit alternation of `number_unit_food_re`, in source order (the
regex engine tries alternatives left to right, so e.g. `egg` shadows
`eggs`). -/
def unitAlts : List String :=
  ["g", "grams", "gram", "kg", "cup", "cups", "tbsp", "tablespoon", "tsp",
   "teaspoon", "slice", "slices", "serving", "servings", "piece", "pieces",
   "egg", "eggs"]

/-- Case-insensitive literal match (the regex is compiled with `re.I`):
strips `pat` from the front of `cs` if it matches up to ASCII case. -/
def stripLitCI : List Char → List Char → Option (List Char)
  | [], cs => some cs
  | _ :: _, [] => none
  | pc :: ps, c :: cs =>
    if asciiLower c = asciiLower pc then stripLitCI ps cs else none

/-- `(?P<food>.+)` at the end of the pattern: succeeds iff a non-newline
character is here, and greedily captures up to the next newline. -/
def dotPlusAt (cs : List Char) : Option (List Char) :=
  match cs with
  | [] => none
  | c :: _ => if c = '\n' then none else some (cs.takeWhile (fun c2 => c2 ≠ '\n'))

/-- Backtracking match of `\s*(?P<food>.+)`: the greedy `\s*` tries the
longest whitespace run first and gives characters back on failure. -/
def spacesFood (cs : List Char) : Option (List Char) :=
  let w := (cs.takeWhile isPySpace).length
  ((List.range (w + 1)).map (fun back => w - back)).findSome? (fun k =>
    dotPlusAt (cs.drop k))

/-- Backtracking match of the pattern tail `\s*(?:of)?\s*(?P<food>.+)`:
greedy `\s*` first, taking `of` preferred over skipping it; returns the
food group of the first success in Python's backtracking order. -/
def tailMatch (cs : List Char) : Option (List Char) :=
  let w := (cs.takeWhile isPySpace).length
  ((List.range (w + 1)).map (fun back => w - back)).findSome? (fun k =>
    let r1 := cs.drop k
    let withOf :=
      match stripLitCI ['o', 'f'] r1 with
      | some r2 => spacesFood r2
      | none => none
    match withOf with
    | some food => some food
    | none => spacesFood r1)

/-- The candidates of the anchored number group `\d+(?:\.\d+)?` in
Python's backtracking order (full digits with the longest fraction first,
then shorter fractions, then no fraction, then shorter digit runs), each
with its remainder. -/
def numberCandidates (cs : List Char) : List ((List Char × List Char) × List Char) :=
  let d := cs.takeWhile isDigitChar
  let r1 := cs.drop d.length
  if d.isEmpty then []
  else
    let withFrac :=
      match r1 with
      | '.' :: r =>
        let f := r.takeWhile isDigitChar
        (List.range f.length).map (fun back =>
          let m := f.length - back
          ((d, f.take m), r.drop m))
      | _ => []
    let shorter := (List.range d.length).map (fun back =>
      let i := d.length - back
      ((d.take i, ([] : List Char)), cs.drop i))
    withFrac ++ shorter

/-- The groups of a successful `number_unit_food_re.match`, after the
post-processing the code applies (`float(...)`, `(... or "").lower()`). -/
structure NufGroups where
  num : ℚ
  unit : String
  food : String
  deriving DecidableEq, Repr

/-- `number_unit_food_re.match(p)` (anchored; Python leftmost-preference
backtracking: greedy number, unit alternatives in source order before the
empty option, then the tail). -/
def nufMatch (p : String) : Option NufGroups :=
  (numberCandidates p.data).findSome? (fun cand =>
    let rest := cand.2
    let w := (rest.takeWhile isPySpace).length
    let r := ((List.range (w + 1)).map (fun back => w - back)).findSome? (fun k1 =>
      let r1 := rest.drop k1
      let withUnit := unitAlts.findSome? (fun u =>
        match stripLitCI u.data r1 with
        | some r2 => (tailMatch r2).map (fun food => (u, food))
        | none => none)
      match withUnit with
      | some uf => some uf
      | none => (tailMatch r1).map (fun food => ("", food)))
    r.map (fun uf => { num := numVal cand.1.1 cand.1.2, unit := uf.1, food := ⟨uf.2⟩ }))

/-! ### `find_best_food_token` (difflib embedded from its documented
semantics) -/

/-- Length of the common prefix of two character lists. -/
def commonRunLen : List Char → List Char → ℕ
  | a :: xs, b :: ys => if a = b then commonRunLen xs ys + 1 else 0
  | _, _ => 0

/-- `SequenceMatcher.find_longest_match` over the whole strings (no junk,
autojunk irrelevant below 200 characters): the longest block with
`a[i:i+k] == b[j:j+k]`, ties broken by smallest `i`, then smallest `j`. -/
def longestMatchBlock (a b : List Char) : ℕ × ℕ × ℕ :=
  (List.range a.length).foldl (fun best i =>
    (List.range b.length).foldl (fun best2 j =>
      let k := commonRunLen (a.drop i) (b.drop j)
      if best2.2.2 < k then (i, j, k) else best2) best) (0, 0, 0)

/-- Total matched size of `SequenceMatcher.get_matching_blocks`: the
longest block plus, recursively, the pieces to its left and right.  The
fuel only bounds the recursion depth (each level splits off at least one
matched character). -/
def matchingTotal : ℕ → List Char → List Char → ℕ
  | 0, _, _ => 0
  | fuel + 1, a, b =>
    let lm := longestMatchBlock a b
    if lm.2.2 = 0 then 0
    else
      matchingTotal fuel (a.take lm.1) (b.take lm.2.1) + lm.2.2 +
        matchingTotal fuel (a.drop (lm.1 + lm.2.2)) (b.drop (lm.2.1 + lm.2.2))

/-- `SequenceMatcher(None, a, b).ratio() = 2*M/T` (defined as 1 when both
strings are empty, as in difflib). -/
def seqScore (a b : String) : ℚ :=
  if a.data.length + b.data.length = 0 then 1
  else 2 * (matchingTotal (a.data.length + b.data.length) a.data b.data : ℚ) /
    ((a.data.length : ℚ) + (b.data.length : ℚ))

/-- One step of the best-candidate selection of `get_close_matches`:
keep the greater of the current best and the next key by the
`(score, key)` pair ordering, ignoring keys under the cutoff. -/
def gcmStep (word : String) (best : Option (ℚ × String)) (x : String) :
    Option (ℚ × String) :=
  if 3/5 ≤ seqScore x word then
    match best with
    | none => some (seqScore x word, x)
    | some b =>
      if b.1 < seqScore x word ∨ (b.1 = seqScore x word ∧ b.2 < x) then
        some (seqScore x word, x)
      else some b
  else best

/-- `difflib.get_close_matches(word, keys, n=1, cutoff=0.6)[0]` (if any):
among the keys whose score against `word` is at least 0.6, the one with
the greatest `(score, key)` pair — `heapq.nlargest` compares the
`(score, string)` tuples, so equal scores are broken towards the
lexicographically larger key. -/
def getCloseMatch (word : String) (keys : List String) : Option String :=
  (keys.foldl (gcmStep word) none).map Prod.snd

/-- Python `needle in hay` (substring containment; the empty string is a
substring of everything). -/
def isSubstrOf (needle hay : List Char) : Bool :=
  (List.range (hay.length + 1)).any (fun i => needle.isPrefixOf (hay.drop i))

/-- `find_best_food_token(token)`: exact case-insensitive equality (1.0),
then difflib close match (0.8), then substring containment (0.7), else no
key (0.0); each strategy scans `FOOD_KEYS` in table order. -/
def find_best_food_token (keys : List String) (token : String) : Option String × ℚ :=
  let t := pyLower (pyStrip token)
  match keys.find? (fun key => t = pyLower key) with
  | some key => (some key, 1)
  | none =>
    match getCloseMatch t keys with
    | some m => (some m, 4/5)
    | none =>
      match keys.find? (fun key => isSubstrOf t.data (pyLower key).data) with
      | some key => (some key, 7/10)
      | none => (none, 0)

/-! ### `parse_meal_text` -/

structure ParsedItem where
  raw : String
  food_key : Option String
  grams : ℚ
  confidence : ℚ
  deriving DecidableEq, Repr

/-- Body of the per-clause loop of `parse_meal_text` (`p` is one stripped,
non-blank clause). -/
def parseClause (db : FoodDB) (p : String) : ParsedItem :=
  match gramsSearch p.data with
  | some grams =>
    let token := pyStrip ⟨gramsSubAll p.data⟩
    let kc := find_best_food_token (foodKeys db) token
    let key : Option String :=
      match kc.1 with
      | none => some token
      | some k => some k
    { raw := p, food_key := key, grams := grams, confidence := kc.2 }
  | none =>
    match nufMatch p with
    | some m =>
      let foodToken := pyLower (pyStrip m.food)
      let kc := find_best_food_token (foodKeys db) foodToken
      let grams : ℚ :=
        if m.num ≠ 0 ∧ m.unit ≠ "" then
          match lookupUnit m.unit with
          | some u => m.num * u
          | none => m.num * 100
        else if m.num ≠ 0 then
          match kc.1.bind (lookupFood db) with
          | some e => m.num * e.serving_g
          | none => m.num * 100
        else
          match kc.1.bind (lookupFood db) with
          | some e => e.serving_g
          | none => 100
      { raw := p, food_key := kc.1, grams := grams, confidence := kc.2 }
    | none =>
      let token := pyLower p
      let kc := find_best_food_token (foodKeys db) token
      let grams : ℚ :=
        match kc.1.bind (lookupFood db) with
        | some e => e.serving_g
        | none => 100
      { raw := p, food_key := kc.1, grams := grams, confidence := kc.2 }

/-- `parse_meal_text(text)` (the `for part in parts` loop with its
`continue` on blank clauses, modelled as filter + map of the loop body). -/
def parse_meal_text (db : FoodDB) (text : String) : List ParsedItem :=
  (((splitClauses text).map pyStrip).filter (fun p => p ≠ "")).map (parseClause db)

/-! ### Nutrition calculations -/

/-- `calc_nutrition_for_item(food_key, grams)`: zeros for an unknown or
absent key, else linear scaling of the per-100g values. -/
def calc_nutrition_for_item (db : FoodDB) (food_key : Option String) (grams : ℚ) :
    Nutrient → ℚ :=
  match food_key.bind (lookupFood db) with
  | none => fun _ => 0
  | some base => fun n => grams / 100 * base.nutrient n

/-- `sum_totals`: element-wise accumulation over the item list, then
`round(·, 2)` applied to each accumulated total. -/
def sum_totals (l : List (Nutrient → ℚ)) : Nutrient → ℚ :=
  let totals := l.foldl (fun t ni n => t n + ni n) (fun _ => 0)
  fun n => pyRound 2 (totals n)

/-! ### Flags and suggestions -/

/-- One emitted flag; the f-string `f"Low {n} ({round(pct,1)}% of RDI)"`
is modelled structurally, carrying the same data (nutrient and the
rounded percentage). -/
inductive Flag where
  | low (n : Nutrient) (pct : ℚ)
  | high (n : Nutrient) (pct : ℚ)
  deriving DecidableEq, Repr

/-- The suggestion strings appended in the `pct < 80` branch. -/
def lowSuggestion : Nutrient → List String
  | .protein => ["Add a protein source: egg, paneer, dal, or chicken."]
  | .fiber => ["Add vegetables or fruit (spinach, apple, banana)."]
  | .vitamin_c => ["Add vitamin C rich food: orange, spinach, potato or fruits."]
  | .calories => ["Increase portion sizes or add an energy-dense item (nuts, paneer)."]
  | _ => []

/-- The suggestion strings appended in the `pct > 120` branch. -/
def highSuggestion : Nutrient → List String
  | .fat => ["Reduce fried items or oil; prefer grilled or steamed."]
  | .calories => ["Reduce portion or swap to lower-calorie alternatives."]
  | _ => []

/-- The module-level `RDI` dict of app.py. -/
def defaultRDI : Nutrient → Option ℚ
  | .calories => some 2000
  | .protein => some 50
  | .carbs => some 275
  | .fat => some 70
  | .fiber => some 28
  | .vitamin_c => some 90

/-- One iteration of the flags/suggestions loop of `analyze_meal_text`:
`r = RDI.get(n); if r:` (`None` and `0` both skip), then the strict
threshold comparisons. -/
def dietStep (rdi : Nutrient → Option ℚ) (totals : Nutrient → ℚ)
    (acc : List Flag × List String) (n : Nutrient) : List Flag × List String :=
  match rdi n with
  | none => acc
  | some r =>
    if r = 0 then acc
    else
      let pct := totals n / r * 100
      if pct < 80 then (acc.1 ++ [.low n (pyRound 1 pct)], acc.2 ++ lowSuggestion n)
      else if 120 < pct then (acc.1 ++ [.high n (pyRound 1 pct)], acc.2 ++ highSuggestion n)
      else acc

/-- `list(dict.fromkeys(suggestions))`: de-duplication keeping the first
occurrence of each string. -/
def dedupFirst (l : List String) : List String :=
  l.foldl (fun acc s => if s ∈ acc then acc else acc ++ [s]) []

/-- The flags-and-suggestions loop of `analyze_meal_text` (lines 202-227),
parameterised by the RDI configuration (injectable per the interface
contract; app.py uses the module-level `RDI`). -/
def dietAnalysis (rdi : Nutrient → Option ℚ) (totals : Nutrient → ℚ) :
    List Flag × List String :=
  let fs := NUTRIENTS.foldl (dietStep rdi totals) ([], [])
  (fs.1, dedupFirst fs.2)

/-! ### `analyze_meal_text` and the `/analyze` route -/

/-- One element of the returned `parsed_items` (display-rounded views). -/
structure ParsedEntry where
  raw : String
  food_key : Option String
  grams : ℚ
  confidence : ℚ
  nutrition : Nutrient → ℚ

/-- The value returned by `analyze_meal_text`. -/
structure AnalysisResult where
  parsed_items : List ParsedEntry
  totals : Nutrient → ℚ
  flags : List Flag
  suggestions : List String

/-- `analyze_meal_text(text)`. -/
def analyze_meal_text (rdi : Nutrient → Option ℚ) (db : FoodDB) (text : String) :
    AnalysisResult :=
  let parsed := parse_meal_text db text
  let item_nut_list := parsed.map (fun p => calc_nutrition_for_item db p.food_key p.grams)
  let parsed_with_nut := parsed.map (fun p =>
    { raw := p.raw, food_key := p.food_key, grams := pyRound 1 p.grams,
      confidence := pyRound 2 p.confidence,
      nutrition := fun n => pyRound 2 (calc_nutrition_for_item db p.food_key p.grams n)
      : ParsedEntry })
  let totals := sum_totals item_nut_list
  let fs := dietAnalysis rdi totals
  { parsed_items := parsed_with_nut, totals := totals, flags := fs.1,
    suggestions := fs.2 }

/-- The `/analyze` route body: empty or whitespace-only input is rejected
with the "Empty input" error before any analysis happens; otherwise the
analysis result is computed and returned.  (The audit `save_log` call
happens after the analysis, and its failure is caught and ignored, so it
never affects the returned value.) -/
def analyze (rdi : Nutrient → Option ℚ) (db : FoodDB) (text : String) :
    Except String AnalysisResult :=
  if pyStrip text = "" then .error "Empty input"
  else .ok (analyze_meal_text rdi db text)

/-! ### Concrete tables used to instantiate theorems -/

/-- The reference table of the spec's end-to-end example:
`egg: {calories:155, protein:13, carbs:1.1, fat:11, fiber:0, vitamin_c:0,
serving_g:50}`. -/
def eggDB : FoodDB := [("egg", ⟨155, 13, 11/10, 11, 0, 0, 50⟩)]

/-- The nutrient a flag is about. -/
def Flag.nutrient : Flag → Nutrient
  | .low n _ => n
  | .high n _ => n

/-- The flag (if any) one iteration of the loop emits for nutrient `n`
(the same branch structure as `dietStep`, restricted to the flag list). -/
def flagFor (rdi : Nutrient → Option ℚ) (totals : Nutrient → ℚ) (n : Nutrient) :
    Option Flag :=
  match rdi n with
  | none => none
  | some r =>
    if r = 0 then none
    else
      let pct := totals n / r * 100
      if pct < 80 then some (.low n (pyRound 1 pct))
      else if 120 < pct then some (.high n (pyRound 1 pct))
      else none

/-- The suggestions one iteration of the loop appends for nutrient `n`. -/
def sugsFor (rdi : Nutrient → Option ℚ) (totals : Nutrient → ℚ) (n : Nutrient) :
    List String :=
  match rdi n with
  | none => []
  | some r =>
    if r = 0 then []
    else
      let pct := totals n / r * 100
      if pct < 80 then lowSuggestion n
      else if 120 < pct then highSuggestion n
      else []

/-! ### Helper lemmas -/

/-- Unfolding the element-wise accumulation of `sum_totals` into a plain
sum. -/
lemma foldl_totals (l : List (Nutrient → ℚ)) (init : Nutrient → ℚ) (n : Nutrient) :
    (l.foldl (fun t ni m => t m + ni m) init) n = init n + (l.map (fun f => f n)).sum := by
  induction l generalizing init with
  | nil => simp
  | cons f l ih => simp [List.foldl_cons, ih]; ring

/-- `parseClause` records the stripped clause itself as `raw` in every
branch. -/
lemma parseClause_raw (db : FoodDB) (p : String) : (parseClause db p).raw = p := by
  unfold parseClause
  rcases h1 : gramsSearch p.data with _ | v
  · rcases h2 : nufMatch p with _ | m <;> simp
  · simp

/-- `find_best_food_token` reports confidence 0 exactly in its final
no-match branch, where the key is `None`. -/
lemma fbt_none_conf_zero (keys : List String) (token : String)
    (h : (find_best_food_token keys token).1 = none) :
    (find_best_food_token keys token).2 = 0 := by
  unfold find_best_food_token at *
  rcases h1 : List.find? (fun key => pyLower (pyStrip token) = pyLower key) keys with _ | k
  all_goals simp only [h1] at h ⊢
  · rcases h2 : getCloseMatch (pyLower (pyStrip token)) keys with _ | m
    all_goals simp only [h2] at h ⊢
    · rcases h3 : List.find?
          (fun key => isSubstrOf (pyLower (pyStrip token)).data (pyLower key).data) keys with _ | k
      all_goals simp_all
    · simp_all
  · simp_all

/-! ### Claim C2 — empty input rejected, everything else analysed -/

/-- **C2.** `analyze` fails with the empty-input error exactly on
empty/whitespace-only text, in which case no analysis value is computed;
on any other text it totally evaluates to `ok` of the analysis (the
embedding is a total function, so no exception can escape), and an
unmatched food key (absent or `None`) contributes all-zero nutrition
instead of aborting. -/
theorem analyze_empty_input_policy (rdi : Nutrient → Option ℚ) (db : FoodDB)
    (text : String) :
    (pyStrip text = "" → analyze rdi db text = .error "Empty input") ∧
    (pyStrip text ≠ "" → analyze rdi db text = .ok (analyze_meal_text rdi db text)) ∧
    (∀ grams n, calc_nutrition_for_item db none grams n = 0) ∧
    (∀ key grams n, lookupFood db key = none →
      calc_nutrition_for_item db (some key) grams n = 0) := by
  refine ⟨fun h => ?_, fun h => ?_, fun grams n => ?_, fun key grams n hk => ?_⟩
  · simp [analyze, h]
  · simp [analyze, h]
  · simp [calc_nutrition_for_item]
  · simp [calc_nutrition_for_item, hk]

/-- Witness for C2 at concrete inputs: whitespace-only text errors, a
non-blank text returns `ok`. -/
theorem analyze_empty_input_policy_witness :
    analyze defaultRDI eggDB "  " = .error "Empty input" ∧
    analyze defaultRDI eggDB "2 eggs" =
      .ok (analyze_meal_text defaultRDI eggDB "2 eggs") :=
  ⟨(analyze_empty_input_policy defaultRDI eggDB "  ").1 (by with_unfolding_all decide),
   (analyze_empty_input_policy defaultRDI eggDB "2 eggs").2.1 (by with_unfolding_all decide)⟩

/-! ### Claim C4 — clause splitting and one item per clause -/

/-- **C4 (amended).** Clauses come from splitting on commas and the
standalone word `and` — matched case-sensitively, since `re.split` is
called without `re.IGNORECASE` — with word boundaries; blank clauses are
discarded, and exactly one parsed item is produced per remaining clause
(its `raw` field is that clause). -/
theorem parse_one_item_per_clause (db : FoodDB) (text : String) :
    (parse_meal_text db text).map ParsedItem.raw =
      ((splitClauses text).map pyStrip).filter (fun p => p ≠ "") ∧
    (parse_meal_text db text).length =
      (((splitClauses text).map pyStrip).filter (fun p => p ≠ "")).length := by
  constructor
  · unfold parse_meal_text
    rw [List.map_map]
    exact List.map_congr_left (fun p _ => parseClause_raw db p) |>.trans (List.map_id _)
  · unfold parse_meal_text
    exact List.length_map _ _

/-- Counterexample to C4 as stated: the split is case-sensitive, so
`"eggs AND rice"` stays a single clause and yields one parsed item, not
two. -/
theorem split_not_case_insensitive :
    splitClauses "eggs AND rice" = ["eggs AND rice"] ∧
    splitClauses "eggs and rice" = ["eggs ", " rice"] ∧
    splitClauses "sandwich" = ["sandwich"] ∧
    (parse_meal_text eggDB "eggs AND rice").length = 1 ∧
    (parse_meal_text eggDB "eggs AND rice").length ≠ 2 := by
  refine ⟨?_, ?_, ?_, ?_, ?_⟩ <;> with_unfolding_all decide

/-! ### Claim C6 — totals are the unrounded per-item sums, rounded once -/

/-- **C6.** Each returned total is the sum of the raw (unrounded)
per-item nutrient values, rounded to 2 decimal places only once, at the
end of the aggregation. -/
theorem totals_round_once (rdi : Nutrient → Option ℚ) (db : FoodDB)
    (text : String) (n : Nutrient) :
    (analyze_meal_text rdi db text).totals n =
      pyRound 2 (((parse_meal_text db text).map
        (fun p => calc_nutrition_for_item db p.food_key p.grams n)).sum) := by
  show sum_totals ((parse_meal_text db text).map
      (fun p => calc_nutrition_for_item db p.food_key p.grams)) n = _
  unfold sum_totals
  rw [foldl_totals, List.map_map]
  norm_num
  rfl

/-! ### Claim C3 — grams positivity -/

lemma numVal_nonneg (d f : List Char) : 0 ≤ numVal d f := by
  unfold numVal
  positivity

lemma gramsMatchAt_nonneg (cs : List Char) (v : ℚ) (r : List Char)
    (h : gramsMatchAt cs = some (v, r)) : 0 ≤ v := by
  unfold gramsMatchAt at h
  rcases h0 : numTokenAt cs with _ | ⟨d, f, r1⟩
  · simp [h0] at h
  · simp only [h0] at h
    rcases h1 : r1.dropWhile isPySpace with _ | ⟨c, r3⟩ <;> simp only [h1] at h
    · exact absurd h (by simp)
    · split at h
      · cases h
        exact numVal_nonneg d f
      · exact absurd h (by simp)

lemma gramsSearch_nonneg : ∀ (cs : List Char) (v : ℚ),
    gramsSearch cs = some v → 0 ≤ v
  | [], v, h => by simp [gramsSearch] at h
  | c :: rest, v, h => by
    unfold gramsSearch at h
    rcases hm : gramsMatchAt (c :: rest) with _ | ⟨v2, r⟩
    · rw [hm] at h
      exact gramsSearch_nonneg rest v h
    · rw [hm] at h
      cases h
      exact gramsMatchAt_nonneg _ _ _ hm

lemma lookupUnit_pos (u : String) (v : ℚ) (h : lookupUnit u = some v) : 0 < v := by
  unfold lookupUnit at h
  rcases h0 : UNIT_TO_G.find? (fun kv => kv.1 = u) with _ | kv
  · simp [h0] at h
  · rw [h0, Option.map_some'] at h
    cases h
    have hmem := List.mem_of_find?_eq_some h0
    fin_cases hmem <;> norm_num

lemma lookupFood_serving_pos (db : FoodDB)
    (hdb : ∀ kv ∈ db, 0 < kv.2.serving_g) (k : String) (e : FoodEntry)
    (h : lookupFood db k = some e) : 0 < e.serving_g := by
  unfold lookupFood at h
  obtain ⟨kv, hkv, he⟩ := Option.map_eq_some'.mp h
  exact he ▸ hdb kv (List.mem_of_find?_eq_some hkv)

lemma nufMatch_num_nonneg (p : String) (m : NufGroups)
    (h : nufMatch p = some m) : 0 ≤ m.num := by
  unfold nufMatch at h
  obtain ⟨cand, _, hc⟩ := List.exists_of_findSome?_eq_some h
  dsimp only at hc
  obtain ⟨uf, _, hm⟩ := Option.map_eq_some'.mp hc
  rw [← hm]
  exact numVal_nonneg _ _

/-- Grams in the number-unit-food and bare-name branches, which all draw
from positive sources. -/
lemma parseClause_grams_cases (db : FoodDB)
    (hdb : ∀ kv ∈ db, 0 < kv.2.serving_g) (p : String) :
    0 ≤ (parseClause db p).grams ∧
      (gramsSearch p.data = none → 0 < (parseClause db p).grams) := by
  unfold parseClause
  rcases h1 : gramsSearch p.data with _ | v
  · rcases h2 : nufMatch p with _ | m
    · dsimp only
      constructor
      · rcases h3 : (find_best_food_token (foodKeys db) (pyLower p)).1.bind (lookupFood db)
          with _ | e
        · norm_num
        · rcases hk : (find_best_food_token (foodKeys db) (pyLower p)).1 with _ | k
          · rw [hk] at h3; simp at h3
          · rw [hk] at h3
            exact le_of_lt (lookupFood_serving_pos db hdb k e h3)
      · intro _
        rcases h3 : (find_best_food_token (foodKeys db) (pyLower p)).1.bind (lookupFood db)
          with _ | e
        · norm_num
        · rcases hk : (find_best_food_token (foodKeys db) (pyLower p)).1 with _ | k
          · rw [hk] at h3; simp at h3
          · rw [hk] at h3
            exact lookupFood_serving_pos db hdb k e h3
    · dsimp only
      have hnum : 0 ≤ m.num := nufMatch_num_nonneg p m h2
      have hpos : 0 < (if m.num ≠ 0 ∧ m.unit ≠ "" then
            match lookupUnit m.unit with
            | some u => m.num * u
            | none => m.num * 100
          else if m.num ≠ 0 then
            match (find_best_food_token (foodKeys db) (pyLower (pyStrip m.food))).1.bind
                (lookupFood db) with
            | some e => m.num * e.serving_g
            | none => m.num * 100
          else
            match (find_best_food_token (foodKeys db) (pyLower (pyStrip m.food))).1.bind
                (lookupFood db) with
            | some e => e.serving_g
            | none => 100) := by
        by_cases hc1 : m.num ≠ 0 ∧ m.unit ≠ ""
        · rw [if_pos hc1]
          have hn : 0 < m.num := lt_of_le_of_ne hnum (Ne.symm hc1.1)
          rcases hu : lookupUnit m.unit with _ | u
          · positivity
          · exact mul_pos hn (lookupUnit_pos _ _ hu)
        · rw [if_neg hc1]
          by_cases hc2 : m.num ≠ 0
          · rw [if_pos hc2]
            have hn : 0 < m.num := lt_of_le_of_ne hnum (Ne.symm hc2)
            rcases h3 : (find_best_food_token (foodKeys db) (pyLower (pyStrip m.food))).1.bind
                (lookupFood db) with _ | e
            · positivity
            · rcases hk : (find_best_food_token (foodKeys db) (pyLower (pyStrip m.food))).1
                with _ | k
              · rw [hk] at h3; simp at h3
              · rw [hk] at h3
                exact mul_pos hn (lookupFood_serving_pos db hdb k e h3)
          · rw [if_neg hc2]
            rcases h3 : (find_best_food_token (foodKeys db) (pyLower (pyStrip m.food))).1.bind
                (lookupFood db) with _ | e
            · norm_num
            · rcases hk : (find_best_food_token (foodKeys db) (pyLower (pyStrip m.food))).1
                with _ | k
              · rw [hk] at h3; simp at h3
              · rw [hk] at h3
                exact lookupFood_serving_pos db hdb k e h3
      exact ⟨le_of_lt hpos, fun _ => hpos⟩
  · dsimp only
    exact ⟨gramsSearch_nonneg p.data v h1, fun hnone => absurd hnone (by simp)⟩

/-- **C3 (amended).** Every parsed item's grams value is non-negative
(finiteness is inherent in the exact-rational model), and strictly
positive whenever the clause contains no explicit gram quantity; a clause
whose explicit gram number is 0, such as `"0g chicken"`, yields grams
exactly 0.  (Requires every table entry's `serving_g` to be positive, as
the interface contract's validated table guarantees.) -/
theorem parse_grams_nonneg (db : FoodDB)
    (hdb : ∀ kv ∈ db, 0 < kv.2.serving_g) (text : String) :
    ∀ it ∈ parse_meal_text db text,
      0 ≤ it.grams ∧ (gramsSearch it.raw.data = none → 0 < it.grams) := by
  intro it hit
  unfold parse_meal_text at hit
  obtain ⟨p, _, hp⟩ := List.mem_map.mp hit
  subst hp
  rw [parseClause_raw]
  exact parseClause_grams_cases db hdb p

/-- Witness for C3 (amended) at a concrete input. -/
theorem parse_grams_nonneg_witness :
    0 ≤ ({ raw := "2 eggs", food_key := none, grams := 100, confidence := 0 } :
      ParsedItem).grams := by
  have h := parse_grams_nonneg eggDB (by with_unfolding_all decide) "2 eggs"
  exact (h _ (by with_unfolding_all decide)).1

/-- Counterexample to C3 as stated: the explicit-grams branch passes the
literal number through, so `"0g chicken"` produces an item with grams
equal to 0, not strictly positive. -/
theorem explicit_zero_grams_passes_through :
    (parse_meal_text eggDB "0g chicken").map ParsedItem.grams = [0] ∧
    ¬ ∀ it ∈ parse_meal_text eggDB "0g chicken", 0 < it.grams := by
  constructor
  · with_unfolding_all decide
  · intro h
    have h0 := h (⟨"0g chicken", some "chicken", 0, 0⟩ : ParsedItem)
      (by with_unfolding_all decide)
    exact absurd h0 (by norm_num)

/-! ### Claim C8 — a quantity of 0 falls back to the serving default -/

/-- **C8.** In the number-unit-food branch, a numeric quantity of 0 is
falsy in Python (`if num and unit:`), so the parser never multiplies 0 by
the unit's gram value: it takes the no-number fallback, the matched
food's `serving_g` (or 100 when no food matched). -/
theorem zero_quantity_uses_serving (db : FoodDB) (p : String) (m : NufGroups)
    (h1 : gramsSearch p.data = none) (h2 : nufMatch p = some m)
    (h3 : m.num = 0) (_h4 : (lookupUnit m.unit).isSome) :
    (parseClause db p).grams =
      match (find_best_food_token (foodKeys db) (pyLower (pyStrip m.food))).1.bind
          (lookupFood db) with
      | some e => e.serving_g
      | none => 100 := by
  unfold parseClause
  rw [h1, h2]
  simp [h3]

/-- Witness for C8: `"0 eggs"` (number 0, recognized unit `egg`, food
token `s` matching nothing) gets grams 100, not 0 × 50. -/
theorem zero_quantity_uses_serving_witness :
    (parseClause eggDB "0 eggs").grams = 100 := by
  have h := zero_quantity_uses_serving eggDB "0 eggs"
    { num := 0, unit := "egg", food := "s" }
    (by with_unfolding_all decide) (by with_unfolding_all decide)
    (by with_unfolding_all decide) (by with_unfolding_all decide)
  rw [h]
  with_unfolding_all decide

/-! ### Claim C9 — where the raw token is retained as `food_key` -/

/-- **C9.** The raw-token fallback for `food_key` exists only in the
explicit-grams branch: there an unmatched food stores the leftover token
string at confidence 0; in the number-unit-food and bare-name branches an
unmatched food leaves `food_key = None` at confidence 0. -/
theorem unmatched_food_key_policy (db : FoodDB) (p : String) :
    (∀ v, gramsSearch p.data = some v →
      (find_best_food_token (foodKeys db) (pyStrip ⟨gramsSubAll p.data⟩)).1 = none →
      (parseClause db p).food_key = some (pyStrip ⟨gramsSubAll p.data⟩) ∧
        (parseClause db p).confidence = 0) ∧
    (∀ m, gramsSearch p.data = none → nufMatch p = some m →
      (find_best_food_token (foodKeys db) (pyLower (pyStrip m.food))).1 = none →
      (parseClause db p).food_key = none ∧ (parseClause db p).confidence = 0) ∧
    (gramsSearch p.data = none → nufMatch p = none →
      (find_best_food_token (foodKeys db) (pyLower p)).1 = none →
      (parseClause db p).food_key = none ∧ (parseClause db p).confidence = 0) := by
  refine ⟨fun v h1 hk => ?_, fun m h1 h2 hk => ?_, fun h1 h2 hk => ?_⟩
  · unfold parseClause
    rw [h1]
    dsimp only
    rw [hk]
    exact ⟨rfl, fbt_none_conf_zero _ _ hk⟩
  · unfold parseClause
    rw [h1, h2]
    dsimp only
    exact ⟨hk, fbt_none_conf_zero _ _ hk⟩
  · unfold parseClause
    rw [h1, h2]
    dsimp only
    exact ⟨hk, fbt_none_conf_zero _ _ hk⟩

/-- Witness for C9: `"10g zzz"` keeps the leftover token `zzz` as
`food_key` at confidence 0, while `"2 zzz"` and `"zzz"` get `None`. -/
theorem unmatched_food_key_policy_witness :
    ((parseClause eggDB "10g zzz").food_key = some "zzz" ∧
      (parseClause eggDB "10g zzz").confidence = 0) ∧
    ((parseClause eggDB "2 zzz").food_key = none ∧
      (parseClause eggDB "2 zzz").confidence = 0) ∧
    ((parseClause eggDB "zzz").food_key = none ∧
      (parseClause eggDB "zzz").confidence = 0) := by
  have h1 := (unmatched_food_key_policy eggDB "10g zzz").1 10
    (by with_unfolding_all decide) (by with_unfolding_all decide)
  have h2 := (unmatched_food_key_policy eggDB "2 zzz").2.1
    { num := 2, unit := "", food := "zzz" }
    (by with_unfolding_all decide) (by with_unfolding_all decide)
    (by with_unfolding_all decide)
  have h3 := (unmatched_food_key_policy eggDB "zzz").2.2
    (by with_unfolding_all decide) (by with_unfolding_all decide)
    (by with_unfolding_all decide)
  refine ⟨⟨?_, h1.2⟩, h2, h3⟩
  rw [h1.1]
  with_unfolding_all decide

/-! ### Claims C7 and C10 — threshold flags and the RDI guard -/

lemma dietStep_eq (rdi : Nutrient → Option ℚ) (totals : Nutrient → ℚ)
    (acc : List Flag × List String) (n : Nutrient) :
    dietStep rdi totals acc n =
      (acc.1 ++ (flagFor rdi totals n).toList, acc.2 ++ sugsFor rdi totals n) := by
  unfold dietStep flagFor sugsFor
  rcases rdi n with _ | r
  · simp
  · dsimp only
    split_ifs <;> simp

lemma dietFold_eq (rdi : Nutrient → Option ℚ) (totals : Nutrient → ℚ) :
    ∀ (l : List Nutrient) (acc : List Flag × List String),
    l.foldl (dietStep rdi totals) acc =
      (acc.1 ++ l.filterMap (flagFor rdi totals),
       acc.2 ++ l.flatMap (sugsFor rdi totals))
  | [], acc => by simp
  | n :: l, acc => by
    rw [List.foldl_cons, dietFold_eq rdi totals l, dietStep_eq]
    rcases hf : flagFor rdi totals n with _ | fl <;>
      simp [List.filterMap_cons, hf, List.append_assoc]

lemma dietAnalysis_eq (rdi : Nutrient → Option ℚ) (totals : Nutrient → ℚ) :
    dietAnalysis rdi totals =
      (NUTRIENTS.filterMap (flagFor rdi totals),
       dedupFirst (NUTRIENTS.flatMap (sugsFor rdi totals))) := by
  unfold dietAnalysis
  rw [dietFold_eq]
  simp

lemma flagFor_tag (rdi : Nutrient → Option ℚ) (totals : Nutrient → ℚ)
    (m : Nutrient) (fl : Flag) (h : flagFor rdi totals m = some fl) :
    fl.nutrient = m := by
  unfold flagFor at h
  split at h
  · exact absurd h (by simp)
  · dsimp only at h
    split_ifs at h
    · cases h; rfl
    · cases h; rfl

lemma mem_NUTRIENTS (n : Nutrient) : n ∈ NUTRIENTS := by
  cases n <;> simp [NUTRIENTS]

lemma flagFor_congr_totals (rdi : Nutrient → Option ℚ) (t1 t2 : Nutrient → ℚ)
    (m : Nutrient) (h : t1 m = t2 m) : flagFor rdi t1 m = flagFor rdi t2 m := by
  unfold flagFor
  rw [h]

lemma sugsFor_congr_totals (rdi : Nutrient → Option ℚ) (t1 t2 : Nutrient → ℚ)
    (m : Nutrient) (h : t1 m = t2 m) : sugsFor rdi t1 m = sugsFor rdi t2 m := by
  unfold sugsFor
  rw [h]

lemma flatMap_congr_left {α β : Type} (l : List α) (f g : α → List β)
    (h : ∀ a ∈ l, f a = g a) : l.flatMap f = l.flatMap g := by
  induction l with
  | nil => rfl
  | cons a l ih =>
    rw [List.flatMap_cons, List.flatMap_cons, h a (by simp), ih (fun x hx => h x (by simp [hx]))]

lemma filterMap_congr_left {α β : Type} (l : List α) (f g : α → Option β)
    (h : ∀ a ∈ l, f a = g a) : l.filterMap f = l.filterMap g := by
  induction l with
  | nil => rfl
  | cons a l ih =>
    rw [List.filterMap_cons, List.filterMap_cons, h a (by simp),
      ih (fun x hx => h x (by simp [hx]))]

/-- **C7.** For a nutrient with a defined non-zero RDI target, a Low flag
is emitted exactly when the percentage is strictly below 80 and a High
flag exactly when it is strictly above 120; totals at exactly 80% or
exactly 120% therefore produce no flag. -/
theorem flag_thresholds (rdi : Nutrient → Option ℚ) (totals : Nutrient → ℚ)
    (n : Nutrient) (r : ℚ) (h : rdi n = some r) (hr : r ≠ 0) :
    ((∃ q, Flag.low n q ∈ (dietAnalysis rdi totals).1) ↔ totals n / r * 100 < 80) ∧
    ((∃ q, Flag.high n q ∈ (dietAnalysis rdi totals).1) ↔ 120 < totals n / r * 100) := by
  rw [dietAnalysis_eq]
  dsimp only
  constructor
  · constructor
    · rintro ⟨q, hq⟩
      obtain ⟨m, _, hm⟩ := List.mem_filterMap.mp hq
      have htag := flagFor_tag rdi totals m _ hm
      simp only [Flag.nutrient] at htag
      subst htag
      unfold flagFor at hm
      rw [h] at hm
      dsimp only at hm
      rw [if_neg hr] at hm
      by_cases hlt : totals n / r * 100 < 80
      · exact hlt
      · rw [if_neg hlt] at hm
        by_cases hgt : 120 < totals n / r * 100
        · rw [if_pos hgt] at hm
          exact absurd hm (by simp)
        · rw [if_neg hgt] at hm
          exact absurd hm (by simp)
    · intro hlt
      refine ⟨pyRound 1 (totals n / r * 100),
        List.mem_filterMap.mpr ⟨n, mem_NUTRIENTS n, ?_⟩⟩
      unfold flagFor
      rw [h]
      dsimp only
      rw [if_neg hr, if_pos hlt]
  · constructor
    · rintro ⟨q, hq⟩
      obtain ⟨m, _, hm⟩ := List.mem_filterMap.mp hq
      have htag := flagFor_tag rdi totals m _ hm
      simp only [Flag.nutrient] at htag
      subst htag
      unfold flagFor at hm
      rw [h] at hm
      dsimp only at hm
      rw [if_neg hr] at hm
      by_cases hlt : totals n / r * 100 < 80
      · rw [if_pos hlt] at hm
        exact absurd hm (by simp)
      · rw [if_neg hlt] at hm
        by_cases hgt : 120 < totals n / r * 100
        · exact hgt
        · rw [if_neg hgt] at hm
          exact absurd hm (by simp)
    · intro hgt
      have hlt : ¬ totals n / r * 100 < 80 := by linarith
      refine ⟨pyRound 1 (totals n / r * 100),
        List.mem_filterMap.mpr ⟨n, mem_NUTRIENTS n, ?_⟩⟩
      unfold flagFor
      rw [h]
      dsimp only
      rw [if_neg hr, if_neg hlt, if_pos hgt]

/-- Witness for C7: calorie totals at exactly 80% (1600 of 2000) and at
exactly 120% (2400 of 2000) of the RDI produce no flag. -/
theorem flag_thresholds_witness :
    (¬ ∃ q, Flag.low .calories q ∈ (dietAnalysis defaultRDI (fun _ => 1600)).1) ∧
    (¬ ∃ q, Flag.high .calories q ∈ (dietAnalysis defaultRDI (fun _ => 2400)).1) := by
  constructor
  · intro hex
    have h := (flag_thresholds defaultRDI (fun _ => 1600) .calories 2000
      (by simp [defaultRDI]) (by norm_num)).1.mp hex
    norm_num at h
  · intro hex
    have h := (flag_thresholds defaultRDI (fun _ => 2400) .calories 2000
      (by simp [defaultRDI]) (by norm_num)).2.mp hex
    norm_num at h

lemma flagFor_skip (rdi : Nutrient → Option ℚ) (totals : Nutrient → ℚ)
    (n : Nutrient) (h : rdi n = none ∨ rdi n = some 0) :
    flagFor rdi totals n = none := by
  rcases h with h | h
  · unfold flagFor
    rw [h]
  · unfold flagFor
    rw [h]
    simp

lemma sugsFor_skip (rdi : Nutrient → Option ℚ) (totals : Nutrient → ℚ)
    (n : Nutrient) (h : rdi n = none ∨ rdi n = some 0) :
    sugsFor rdi totals n = [] := by
  rcases h with h | h
  · unfold sugsFor
    rw [h]
  · unfold sugsFor
    rw [h]
    simp

/-- **C10.** A nutrient whose RDI entry is missing or 0 is skipped
entirely by the dietary analyzer: it contributes no flag, removing its
RDI entry outright changes nothing, and the result does not depend on
that nutrient's total at all (the guarded percentage is never used). -/
theorem rdi_guard_skips (rdi : Nutrient → Option ℚ) (totals : Nutrient → ℚ)
    (n : Nutrient) (h : rdi n = none ∨ rdi n = some 0) :
    (∀ q, Flag.low n q ∉ (dietAnalysis rdi totals).1 ∧
          Flag.high n q ∉ (dietAnalysis rdi totals).1) ∧
    dietAnalysis rdi totals =
      dietAnalysis (fun m => if m = n then none else rdi m) totals ∧
    (∀ totals2, (∀ m, m ≠ n → totals2 m = totals m) →
      dietAnalysis rdi totals2 = dietAnalysis rdi totals) := by
  refine ⟨fun q => ⟨fun hq => ?_, fun hq => ?_⟩, ?_, fun totals2 ht => ?_⟩
  · rw [dietAnalysis_eq] at hq
    obtain ⟨m, _, hm⟩ := List.mem_filterMap.mp hq
    have htag := flagFor_tag rdi totals m _ hm
    simp only [Flag.nutrient] at htag
    subst htag
    rw [flagFor_skip rdi totals n h] at hm
    exact absurd hm (by simp)
  · rw [dietAnalysis_eq] at hq
    obtain ⟨m, _, hm⟩ := List.mem_filterMap.mp hq
    have htag := flagFor_tag rdi totals m _ hm
    simp only [Flag.nutrient] at htag
    subst htag
    rw [flagFor_skip rdi totals n h] at hm
    exact absurd hm (by simp)
  · rw [dietAnalysis_eq, dietAnalysis_eq]
    have hflag : ∀ m ∈ NUTRIENTS, flagFor rdi totals m =
        flagFor (fun m2 => if m2 = n then none else rdi m2) totals m := by
      intro m _
      by_cases hm : m = n
      · subst hm
        rw [flagFor_skip rdi totals m h]
        unfold flagFor
        simp
      · unfold flagFor
        have hb : (fun m2 => if m2 = n then none else rdi m2) m = rdi m := by simp [hm]
        rw [hb]
    have hsug : ∀ m ∈ NUTRIENTS, sugsFor rdi totals m =
        sugsFor (fun m2 => if m2 = n then none else rdi m2) totals m := by
      intro m _
      by_cases hm : m = n
      · subst hm
        rw [sugsFor_skip rdi totals m h]
        unfold sugsFor
        simp
      · unfold sugsFor
        have hb : (fun m2 => if m2 = n then none else rdi m2) m = rdi m := by simp [hm]
        rw [hb]
    rw [filterMap_congr_left _ _ _ hflag, flatMap_congr_left _ _ _ hsug]
  · rw [dietAnalysis_eq, dietAnalysis_eq]
    have hflag : ∀ m ∈ NUTRIENTS, flagFor rdi totals2 m = flagFor rdi totals m := by
      intro m _
      by_cases hm : m = n
      · subst hm
        rw [flagFor_skip rdi totals2 m h, flagFor_skip rdi totals m h]
      · exact flagFor_congr_totals rdi totals2 totals m (ht m hm)
    have hsug : ∀ m ∈ NUTRIENTS, sugsFor rdi totals2 m = sugsFor rdi totals m := by
      intro m _
      by_cases hm : m = n
      · subst hm
        rw [sugsFor_skip rdi totals2 m h, sugsFor_skip rdi totals m h]
      · exact sugsFor_congr_totals rdi totals2 totals m (ht m hm)
    rw [filterMap_congr_left _ _ _ hflag, flatMap_congr_left _ _ _ hsug]

/-- Witness for C10: with the carbs RDI entry overridden to 0, no carbs
flag is emitted. -/
theorem rdi_guard_skips_witness :
    Flag.low .carbs 0 ∉
      (dietAnalysis (fun m => if m = .carbs then some 0 else defaultRDI m)
        (fun _ => 1)).1 :=
  ((rdi_guard_skips (fun m => if m = .carbs then some 0 else defaultRDI m)
    (fun _ => 1) .carbs (Or.inr (by simp))).1 0).1

/-! ### Claim C5 — matcher priority order and confidence values -/

lemma gcmStep_some (word : String) (b0 : ℚ × String) (y : String) :
    ∃ rs, gcmStep word (some b0) y = some rs ∧ b0.1 ≤ rs.1 := by
  unfold gcmStep
  by_cases hc : 3/5 ≤ seqScore y word
  · rw [if_pos hc]
    dsimp only
    by_cases hrep : b0.1 < seqScore y word ∨ (b0.1 = seqScore y word ∧ b0.2 < y)
    · rw [if_pos hrep]
      refine ⟨_, rfl, ?_⟩
      rcases hrep with h | h
      · exact le_of_lt h
      · exact le_of_eq h.1
    · rw [if_neg hrep]
      exact ⟨b0, rfl, le_refl _⟩
  · rw [if_neg hc]
    exact ⟨b0, rfl, le_refl _⟩

lemma gcmFold_mono (word : String) :
    ∀ (ks : List String) (b0 : ℚ × String),
    ∃ rs, ks.foldl (gcmStep word) (some b0) = some rs ∧ b0.1 ≤ rs.1
  | [], b0 => ⟨b0, rfl, le_refl _⟩
  | y :: ks, b0 => by
    obtain ⟨rs1, h1, hle1⟩ := gcmStep_some word b0 y
    obtain ⟨rs, h2, hle2⟩ := gcmFold_mono word ks rs1
    rw [List.foldl_cons, h1]
    exact ⟨rs, h2, le_trans hle1 hle2⟩

lemma gcmStep_cases (word : String) (b : Option (ℚ × String)) (y : String)
    (b0 : ℚ × String) (h : gcmStep word b y = some b0) :
    (b0 = (seqScore y word, y) ∧ 3/5 ≤ seqScore y word) ∨ b = some b0 := by
  unfold gcmStep at h
  by_cases hc : 3/5 ≤ seqScore y word
  · rw [if_pos hc] at h
    rcases b with _ | bb
    · exact Or.inl ⟨(Option.some.inj h).symm, hc⟩
    · dsimp only at h
      by_cases hrep : bb.1 < seqScore y word ∨ (bb.1 = seqScore y word ∧ bb.2 < y)
      · rw [if_pos hrep] at h
        exact Or.inl ⟨(Option.some.inj h).symm, hc⟩
      · rw [if_neg hrep] at h
        exact Or.inr h
  · rw [if_neg hc] at h
    exact Or.inr h

lemma gcmStep_ge (word : String) (b : Option (ℚ × String)) (y : String)
    (hy : 3/5 ≤ seqScore y word) :
    ∃ b0, gcmStep word b y = some b0 ∧ seqScore y word ≤ b0.1 := by
  unfold gcmStep
  rw [if_pos hy]
  rcases b with _ | bb
  · exact ⟨_, rfl, le_refl _⟩
  · dsimp only
    by_cases hrep : bb.1 < seqScore y word ∨ (bb.1 = seqScore y word ∧ bb.2 < y)
    · rw [if_pos hrep]
      exact ⟨_, rfl, le_refl _⟩
    · rw [if_neg hrep]
      push_neg at hrep
      exact ⟨bb, rfl, hrep.1⟩

lemma gcmFold_inv (word : String) :
    ∀ (ks : List String) (b : Option (ℚ × String)),
    (∀ b1, b = some b1 → b1.1 = seqScore b1.2 word ∧ 3/5 ≤ b1.1) →
    ∀ rs : ℚ × String, ks.foldl (gcmStep word) b = some rs →
      rs.1 = seqScore rs.2 word ∧ 3/5 ≤ rs.1 ∧ (rs.2 ∈ ks ∨ b = some rs)
  | [], b, hb, rs, h => by
    rw [List.foldl_nil] at h
    exact ⟨(hb rs h).1, (hb rs h).2, Or.inr h⟩
  | y :: ks, b, hb, rs, h => by
    rw [List.foldl_cons] at h
    have hb2 : ∀ b1, gcmStep word b y = some b1 →
        b1.1 = seqScore b1.2 word ∧ 3/5 ≤ b1.1 := by
      intro b1 hb1
      rcases gcmStep_cases word b y b1 hb1 with ⟨heq, hc⟩ | hold
      · subst heq
        exact ⟨rfl, hc⟩
      · exact hb b1 hold
    obtain ⟨hs, hc, hor⟩ := gcmFold_inv word ks (gcmStep word b y) hb2 rs h
    refine ⟨hs, hc, ?_⟩
    rcases hor with hmem | hold
    · exact Or.inl (List.mem_cons_of_mem y hmem)
    · rcases gcmStep_cases word b y rs hold with ⟨heq, _⟩ | hold2
      · left
        rw [heq]
        exact List.mem_cons_self y ks
      · exact Or.inr hold2

lemma gcmFold_max (word : String) :
    ∀ (ks : List String) (b : Option (ℚ × String)) (rs : ℚ × String),
    ks.foldl (gcmStep word) b = some rs →
    ∀ y ∈ ks, 3/5 ≤ seqScore y word → seqScore y word ≤ rs.1
  | [], _, _, _, y, hy, _ => absurd hy (List.not_mem_nil y)
  | z :: ks, b, rs, h, y, hy, hcut => by
    rw [List.foldl_cons] at h
    rcases List.mem_cons.mp hy with hyz | hmem
    · subst hyz
      obtain ⟨b1, hb1, hge⟩ := gcmStep_ge word b y hcut
      rw [hb1] at h
      obtain ⟨rs2, hrs2, hmono⟩ := gcmFold_mono word ks b1
      rw [hrs2] at h
      cases h
      exact le_trans hge hmono
    · exact gcmFold_max word ks (gcmStep word b z) rs h y hmem hcut

/-- The documented contract of `difflib.get_close_matches` with `n=1`: a
returned key is from the list, scores at least the 0.6 cutoff, and no
listed key above the cutoff scores strictly better. -/
lemma getCloseMatch_spec (word : String) (keys : List String) (m : String)
    (h : getCloseMatch word keys = some m) :
    m ∈ keys ∧ 3/5 ≤ seqScore m word ∧
      ∀ y ∈ keys, 3/5 ≤ seqScore y word → seqScore y word ≤ seqScore m word := by
  unfold getCloseMatch at h
  obtain ⟨rs, hrs, hm⟩ := Option.map_eq_some'.mp h
  obtain ⟨hs, hc, hor⟩ := gcmFold_inv word keys none
    (fun b1 hb1 => absurd hb1 (by simp)) rs hrs
  have hmax := gcmFold_max word keys none rs hrs
  subst hm
  rcases hor with hmem | habs
  · exact ⟨hmem, hs ▸ hc, fun y hy hcy => hs ▸ hmax y hy hcy⟩
  · exact absurd habs (by simp)

/-- **C5.** The matcher tries the strategies in fixed priority order with
the first hit winning: exact case-insensitive equality (first key in
table order) at confidence 1.0; otherwise the best close match at or
above ratio 0.6 at confidence 0.8; otherwise the first key containing
the token as a substring at confidence 0.7; otherwise no key at 0.0.
Consequently confidences are confined to {0, 0.7, 0.8, 1} and an exact
match is never shadowed by a looser strategy. -/
theorem find_best_food_token_priority (keys : List String) (token : String) :
    ((find_best_food_token keys token).2 = 0 ∨
      (find_best_food_token keys token).2 = 7/10 ∨
      (find_best_food_token keys token).2 = 4/5 ∨
      (find_best_food_token keys token).2 = 1) ∧
    ((∃ key ∈ keys, pyLower (pyStrip token) = pyLower key) →
      (find_best_food_token keys token).2 = 1 ∧
      (find_best_food_token keys token).1 =
        keys.find? (fun key => pyLower (pyStrip token) = pyLower key)) ∧
    ((find_best_food_token keys token).2 = 4/5 →
      ∃ m, (find_best_food_token keys token).1 = some m ∧ m ∈ keys ∧
        3/5 ≤ seqScore m (pyLower (pyStrip token)) ∧
        ∀ y ∈ keys, 3/5 ≤ seqScore y (pyLower (pyStrip token)) →
          seqScore y (pyLower (pyStrip token)) ≤
            seqScore m (pyLower (pyStrip token))) ∧
    ((find_best_food_token keys token).2 = 7/10 →
      getCloseMatch (pyLower (pyStrip token)) keys = none ∧
      (find_best_food_token keys token).1 =
        keys.find? (fun key =>
          isSubstrOf (pyLower (pyStrip token)).data (pyLower key).data)) ∧
    ((find_best_food_token keys token).2 = 0 →
      (find_best_food_token keys token).1 = none) := by
  unfold find_best_food_token
  dsimp only
  rcases hex : keys.find? (fun key => pyLower (pyStrip token) = pyLower key)
    with _ | k
  · rcases hgcm : getCloseMatch (pyLower (pyStrip token)) keys with _ | m
    · rcases hsub : keys.find? (fun key =>
          isSubstrOf (pyLower (pyStrip token)).data (pyLower key).data)
        with _ | k2
      · dsimp only
        refine ⟨Or.inl rfl, ?_, ?_, ?_, fun _ => rfl⟩
        · rintro ⟨key, hk, hkey⟩
          have hnone := List.find?_eq_none.mp hex key hk
          simp only [decide_eq_true_eq] at hnone
          exact absurd hkey hnone
        · intro hcontra
          norm_num at hcontra
        · intro hcontra
          norm_num at hcontra
      · dsimp only
        refine ⟨Or.inr (Or.inl rfl), ?_, ?_, fun _ => ⟨rfl, rfl⟩, ?_⟩
        · rintro ⟨key, hk, hkey⟩
          have hnone := List.find?_eq_none.mp hex key hk
          simp only [decide_eq_true_eq] at hnone
          exact absurd hkey hnone
        · intro hcontra
          norm_num at hcontra
        · intro hcontra
          norm_num at hcontra
    · dsimp only
      refine ⟨Or.inr (Or.inr (Or.inl rfl)), ?_, fun _ => ?_, ?_, ?_⟩
      · rintro ⟨key, hk, hkey⟩
        have hnone := List.find?_eq_none.mp hex key hk
        simp only [decide_eq_true_eq] at hnone
        exact absurd hkey hnone
      · obtain ⟨hmem, hcut, hmax⟩ := getCloseMatch_spec _ _ _ hgcm
        exact ⟨m, rfl, hmem, hcut, hmax⟩
      · intro hcontra
        norm_num at hcontra
      · intro hcontra
        norm_num at hcontra
  · dsimp only
    refine ⟨Or.inr (Or.inr (Or.inr rfl)), fun _ => ⟨rfl, rfl⟩, ?_, ?_, ?_⟩
    · intro hcontra
      norm_num at hcontra
    · intro hcontra
      norm_num at hcontra
    · intro hcontra
      norm_num at hcontra

/-- Witness for C5: for the one-key table `egg`, the token `" EGG "`
(exact up to case and surrounding whitespace) matches at confidence 1,
and the theorem's confinement applies e.g. to `"eggs"` (fuzzy, 0.8). -/
theorem find_best_food_token_priority_witness :
    (find_best_food_token ["egg"] " EGG ").2 = 1 ∧
    (find_best_food_token ["egg"] "eggs").2 = 4/5 := by
  constructor
  · exact ((find_best_food_token_priority ["egg"] " EGG ").2.1
      ⟨"egg", by simp, by with_unfolding_all decide⟩).1
  · with_unfolding_all decide

/-! ### Claim C1 — the end-to-end `"2 eggs"` example -/

/-- Counterexample to C1 as stated: with the example table, the clause
`"2 eggs"` is matched by `number_unit_food_re` as number `2`, unit `egg`
(the alternation tries `egg` before `eggs` and succeeds), leaving the
food token `s`, which matches nothing — so the single parsed item has
`food_key = None` and confidence 0.0, not `"egg"` at confidence 1.0. -/
theorem two_eggs_counterexample :
    nufMatch "2 eggs" = some { num := 2, unit := "egg", food := "s" } ∧
    (analyze_meal_text defaultRDI eggDB "2 eggs").parsed_items.map
        (fun e => (e.food_key, e.confidence)) ≠ [(some "egg", 1)] := by
  constructor
  · with_unfolding_all decide
  · with_unfolding_all decide

/-- **C1 (amended).** With the reference table of the example, analysing
`"2 eggs"` returns exactly one parsed item whose grams is 100.0 (2 × the
50 g `egg` unit weight) as claimed, but whose `food_key` is `None`,
whose confidence is 0.0, and whose nutrition is all zero — the unit/food
split consumes `egg` as a unit and leaves the unmatched token `s`. -/
theorem two_eggs_amended :
    (analyze_meal_text defaultRDI eggDB "2 eggs").parsed_items.map
      (fun e => (e.raw, e.food_key, e.grams, e.confidence,
        e.nutrition .calories, e.nutrition .protein)) =
      [("2 eggs", none, 100, 0, 0, 0)] := by
  with_unfolding_all decide

end NutriApp
